import Mathlib

/-!
Shallow embedding of the IperChain simplified node
(producer/wine-producer-cli.js.bak, the "IperChain Simplified Node" script):
the ledger state, PoA authority rotation, block production and validation,
the transaction pool, the P2P message handlers and the JSON-RPC dispatcher.

Modelling conventions:
* JavaScript numeric strings (hex "0x…" and decimal BigInt strings) are
  modelled as Nat or Int; account balances are Int because the source
  computes them with signed BigInt arithmetic and never clamps.
* Block numbers are modelled uniformly as Nat (the source stores the genesis
  number as a JS number and mined numbers as hex strings).
* crypto.createHash("sha256")…digest("hex") is a deterministic function of
  its input string; it is modelled by the deterministic stand-in sha256hex.
  Likewise JSON.stringify on transaction parameters is modelled by a
  deterministic serialisation txParamsRepr.  No claim depends on the actual
  digest values, only on determinism of the hash.
* Date.now()/timestamps enter as an explicit `now` argument.
* Thrown JS exceptions are modelled by Except.error; in every throwing
  branch of the source the throw happens before any state mutation, so the
  all-or-nothing Except modelling is faithful.
* Objects used as string-keyed maps (accounts, contracts) are modelled as
  association lists in insertion order, matching JS object key order.
-/

namespace IperChain

/-- Stand-in for the sha256 hex digest: a deterministic function of the
input string (claims depend only on determinism, not on digest values). -/
def sha256hex (s : String) : String := s

/-- Hex rendering of a Nat, as JS Number.prototype.toString(16). -/
def hexString (n : Nat) : String := String.mk (Nat.toDigits 16 n)

/-- Hex rendering of a signed BigInt, as JS BigInt.prototype.toString(16). -/
def hexOfInt (i : Int) : String :=
  if i < 0 then "-" ++ hexString i.natAbs else hexString i.natAbs

/-- JS truthiness of a possibly-absent string field: undefined/null and the
empty string are falsy, every other string is truthy. -/
def jsTruthy : Option String → Bool
  | none => false
  | some s => decide (s ≠ "")

/-- Char-list version of "starts with", structurally recursive. -/
def charsStartWith : List Char → List Char → Bool
  | _, [] => true
  | [], _ :: _ => false
  | c :: cs, p :: ps => c = p && charsStartWith cs ps

/-- Char-list substring search, structurally recursive. -/
def charsContain : List Char → List Char → Bool
  | [], pat => pat.isEmpty
  | c :: cs, pat => charsStartWith (c :: cs) pat || charsContain cs pat

/-- JS String.prototype.includes(pat). -/
def containsSub (s pat : String) : Bool := charsContain s.data pat.data

/-- Account record: { balance, nonce }.  The source stores balance as a
BigInt-convertible string and updates it with signed BigInt arithmetic. -/
structure Account where
  balance : Int
  nonce : Nat
deriving DecidableEq, Repr

/-- Transaction object as built by createTransaction / eth_sendRawTransaction;
blockNumber/blockHash/contractAddress are attached during mining. -/
structure Tx where
  hash : String
  «from» : String
  «to» : Option String
  value : Int
  gas : String
  gasPrice : String
  input : String
  nonce : Nat
  blockNumber : Option Nat
  blockHash : Option String
  contractAddress : Option String
deriving DecidableEq, Repr

/-- Contract record: { bytecode, storage, creator }. -/
structure Contract where
  bytecode : String
  storage : List (String × String)
  creator : String
deriving DecidableEq, Repr

/-- Block object. -/
structure Block where
  number : Nat
  hash : String
  parentHash : String
  timestamp : Nat
  transactions : List Tx
  miner : String
  difficulty : String
  totalDifficulty : String
  size : String
  gasUsed : String
  gasLimit : String
deriving DecidableEq, Repr

/-- The global blockchain `state` object (the p2pNode handle and the mining
interval timer are external resources and carry no ledger data; the mining
flag is kept because eth_sendRawTransaction branches on it). -/
structure NodeState where
  blocks : List Block
  transactions : List Tx
  pendingTransactions : List Tx
  contracts : List (String × Contract)
  accounts : List (String × Account)
  nextBlockNumber : Nat
  mining : Bool
  currentAuthorityIndex : Nat
deriving DecidableEq, Repr

/-- The fixed PoA authority list. -/
def AUTHORITIES : List String :=
  ["0x742d35Cc6634C0532925a3b844Bc454e4438f44e",
   "0x123f681646d4a755815f9cb19e1acc8565a0c2ac",
   "0x456f681646d4a755815f9cb19e1acc8565a0c2ac",
   "0x999f681646d4a755815f9cb19e1acc8565a0c2ac"]

/-- The fixed sender to which eth_sendRawTransaction attributes transactions. -/
def DEFAULT_SENDER : String := "0x742d35Cc6634C0532925a3b844Bc454e4438f44e"

/-- Lookup in a JS-object-as-map modelled as an association list. -/
def lookupEntry {α : Type} (m : List (String × α)) (k : String) : Option α :=
  (m.find? (fun p => p.1 = k)).map Prod.snd

/-- Assignment m[k] = v on a JS-object-as-map: overwrite in place if the key
exists, otherwise append (JS insertion order). -/
def setEntry {α : Type} (m : List (String × α)) (k : String) (v : α) :
    List (String × α) :=
  if (m.find? (fun p => p.1 = k)).isSome then
    m.map (fun p => if p.1 = k then (k, v) else p)
  else m ++ [(k, v)]

/-- state.accounts[a] lookup. -/
def getAccount (s : NodeState) (a : String) : Option Account :=
  lookupEntry s.accounts a

/-- initGenesisBlock(): genesis block plus the four funded test accounts. -/
def initGenesisBlock (timestamp : Nat) : NodeState :=
  let genesisBlock : Block :=
    { number := 0
      hash := "0x" ++ sha256hex ("genesis-" ++ toString timestamp)
      parentHash := "0x0000000000000000000000000000000000000000000000000000000000000000"
      timestamp := timestamp
      transactions := []
      miner := "0x0000000000000000000000000000000000000000"
      difficulty := "0x1"
      totalDifficulty := "0x1"
      size := "0x0"
      gasUsed := "0x0"
      gasLimit := "0x1000000" }
  { blocks := [genesisBlock]
    transactions := []
    pendingTransactions := []
    contracts := []
    accounts :=
      [("0x742d35Cc6634C0532925a3b844Bc454e4438f44e", ⟨1000000000000000000000, 0⟩),
       ("0x123f681646d4a755815f9cb19e1acc8565a0c2ac", ⟨1000000000000000000000, 0⟩),
       ("0x456f681646d4a755815f9cb19e1acc8565a0c2ac", ⟨1000000000000000000000, 0⟩),
       ("0x999f681646d4a755815f9cb19e1acc8565a0c2ac", ⟨1000000000000000000000, 0⟩)]
    nextBlockNumber := 1
    mining := false
    currentAuthorityIndex := 0 }

/-- validateBlock(block): presence of hash/parentHash, parent known anywhere
in the chain unless number is 0, and miner in the authority list. -/
def validateBlock (s : NodeState) (b : Block) : Bool :=
  if b.hash = "" ∨ b.parentHash = "" then false
  else if (s.blocks.find? (fun p => p.hash = b.parentHash)) = none ∧ b.number ≠ 0 then
    false
  else if ¬ (AUTHORITIES.contains b.miner) then false
  else true

/-- addBlock(block): drop silently if the hash is already in the chain,
otherwise append, bump nextBlockNumber to max(old, number+1), remove the
included hashes from the pending pool and index the transactions. -/
def addBlock (s : NodeState) (b : Block) : NodeState :=
  if (s.blocks.find? (fun p => p.hash = b.hash)).isSome then s
  else
    let txHashes := b.transactions.map Tx.hash
    { s with
      blocks := s.blocks ++ [b]
      nextBlockNumber := max s.nextBlockNumber (b.number + 1)
      pendingTransactions :=
        s.pendingTransactions.filter (fun tx => ¬ (txHashes.contains tx.hash))
      transactions := s.transactions ++ b.transactions }

/-- The `block` message handler installed by initP2PNode: validate, and add
only when validation passes. -/
def handleBlockMessage (s : NodeState) (b : Block) : NodeState :=
  if validateBlock s b then addBlock s b else s

/-- The `transaction` message handler installed by initP2PNode: insert into
the pending pool unless a transaction with the same hash is already there. -/
def handleTransactionMessage (s : NodeState) (tx : Tx) : NodeState :=
  if (s.pendingTransactions.find? (fun t => t.hash = tx.hash)).isSome then s
  else { s with pendingTransactions := s.pendingTransactions ++ [tx] }

/-- Caller-supplied parameter object of eth_sendTransaction. -/
structure TxParams where
  «from» : String
  «to» : Option String
  value : Option Int
  gas : Option String
  gasPrice : Option String
  data : Option String
deriving DecidableEq, Repr

/-- Stand-in for JSON.stringify(params): a deterministic serialisation. -/
def txParamsRepr (p : TxParams) : String :=
  p.«from» ++ "|" ++ (p.«to».getD ("null")) ++ "|" ++ toString (p.value.getD 0) ++ "|"
    ++ (p.gas.getD ("")) ++ "|" ++ (p.gasPrice.getD ("")) ++ "|" ++ (p.data.getD (""))

/-- createTransaction(params): build the transaction (hash from the params
plus Date.now(), nonce read from the sender account) and post-increment the
sender's nonce.  Reading the nonce of an absent account throws in the
source (TypeError) before any mutation, modelled by none. -/
def createTransaction (s : NodeState) (p : TxParams) (now : Nat) :
    Option (Tx × NodeState) :=
  match getAccount s p.«from» with
  | none => none
  | some acct =>
    let tx : Tx :=
      { hash := "0x" ++ sha256hex (txParamsRepr p ++ toString now)
        «from» := p.«from»
        «to» := p.«to»
        value := p.value.getD 0
        gas := p.gas.getD ("0x5208")
        gasPrice := p.gasPrice.getD ("0x3b9aca00")
        input := p.data.getD ("0x")
        nonce := acct.nonce
        blockNumber := none
        blockHash := none
        contractAddress := none }
    some (tx, { s with
      accounts := setEntry s.accounts p.«from» { acct with nonce := acct.nonce + 1 } })

/-- One iteration of the transaction-processing forEach inside mineBlock:
balance transfer when `to` is truthy and value > 0 (sender debited only if
its account exists, recipient created with the transferred value if absent),
contract creation when `to` is falsy and `input` truthy, then attachment of
blockNumber/blockHash to the transaction. -/
def processMineTx (accounts : List (String × Account))
    (contracts : List (String × Contract)) (blockNumber : Nat)
    (blockHash : String) (tx : Tx) :
    List (String × Account) × List (String × Contract) × Tx :=
  let accounts1 :=
    if jsTruthy tx.«to» ∧ 0 < tx.value then
      let afterDebit :=
        match lookupEntry accounts tx.«from» with
        | some a => setEntry accounts tx.«from» { a with balance := a.balance - tx.value }
        | none => accounts
      let toAddr := tx.«to».getD ""
      match lookupEntry afterDebit toAddr with
      | some a => setEntry afterDebit toAddr { a with balance := a.balance + tx.value }
      | none => afterDebit ++ [(toAddr, ⟨tx.value, 0⟩)]
    else accounts
  let created :=
    if ¬ jsTruthy tx.«to» ∧ tx.input ≠ "" then
      let contractAddress :=
        "0x" ++ (sha256hex (tx.hash ++ "0x" ++ hexString tx.nonce)).take 40
      (setEntry contracts contractAddress
        { bytecode := tx.input, storage := [], creator := tx.«from» },
       some contractAddress)
    else (contracts, tx.contractAddress)
  (accounts1, created.1,
   { tx with
     contractAddress := created.2
     blockNumber := some blockNumber
     blockHash := some blockHash })

/-- mineBlock(): skip when the pool is empty; otherwise select the current
authority and advance the round-robin cursor, process every pending
transaction in pool order, assemble the new block and add it via addBlock.
If state.blocks[nextBlockNumber-1] is absent the source throws after the
cursor advance (and before any other mutation); that state is returned. -/
def mineBlock (s : NodeState) (now : Nat) : NodeState :=
  if s.pendingTransactions.length = 0 then s
  else
    let currentAuthority := AUTHORITIES.getD s.currentAuthorityIndex ""
    let s1 := { s with
      currentAuthorityIndex := (s.currentAuthorityIndex + 1) % AUTHORITIES.length }
    let blockNumber := s1.nextBlockNumber
    match s1.blocks.get? (blockNumber - 1) with
    | none => s1
    | some parent =>
      let blockHash :=
        "0x" ++ sha256hex ("block-" ++ toString blockNumber ++ "-" ++ toString now)
      let step := s1.pendingTransactions.foldl
        (fun (acc : List (String × Account) × List (String × Contract) × List Tx) tx =>
          let r := processMineTx acc.1 acc.2.1 blockNumber blockHash tx
          (r.1, r.2.1, acc.2.2 ++ [r.2.2]))
        (s1.accounts, s1.contracts, [])
      let transactions := step.2.2
      let newBlock : Block :=
        { number := blockNumber
          hash := blockHash
          parentHash := parent.hash
          timestamp := now
          transactions := transactions
          miner := currentAuthority
          difficulty := "0x1"
          totalDifficulty := "0x" ++ hexString (blockNumber + 1)
          size := "0x" ++ hexString (1000 + transactions.length * 500)
          gasUsed := "0x" ++ hexString (transactions.length * 21000)
          gasLimit := "0x1000000" }
      addBlock { s1 with accounts := step.1, contracts := step.2.1 } newBlock

/-- The dummy bytecode stored by the eth_sendRawTransaction contract path. -/
def dummyBytecode : String := "0x" ++ String.join (List.replicate 10 ("6060604052600080fd00"))

/-- A parsed JSON-RPC call with decoded parameters. -/
inductive RpcCall where
  | web3_clientVersion
  | net_version
  | eth_chainId
  | eth_blockNumber
  | eth_getBlockByNumber (number : Nat) (includeTransactions : Bool)
  | eth_getTransactionByHash (hash : String)
  | eth_sendTransaction (params : TxParams)
  | eth_getTransactionReceipt (hash : String)
  | eth_call («to» : Option String) (data : Option String)
  | eth_accounts
  | eth_estimateGas
  | eth_getBalance (address : String)
  | eth_getCode (address : String)
  | eth_sendRawTransaction (raw : String)
  | evm_mine
  | unknown (method : String)
deriving DecidableEq, Repr

/-- The transaction receipt shape synthesised by eth_getTransactionReceipt. -/
structure Receipt where
  transactionHash : String
  transactionIndex : String
  blockHash : String
  blockNumber : Nat
  «from» : String
  «to» : Option String
  cumulativeGasUsed : String
  gasUsed : String
  contractAddress : Option String
  logs : List String
  status : String
deriving DecidableEq, Repr

/-- Result shapes produced by processMethod. -/
inductive RpcOut where
  | null
  | str (s : String)
  | bool (b : Bool)
  | strList (l : List String)
  | blockObj (b : Block)
  | blockObjTxHashes (b : Block) (hashes : List String)
  | tx (t : Tx)
  | receipt (r : Receipt)
deriving DecidableEq, Repr

/-- processMethod(method, params): the RPC switch.  Except.error models a
thrown JS exception (every throwing branch throws before mutating).  The
eth_sendTransaction branch returns after scheduling production with
setTimeout, so production is not part of this call; eth_sendRawTransaction
calls mineBlock synchronously when the periodic miner is off.  evm_mine
calls mineBlocks(1), an undefined identifier in the source, hence a
ReferenceError. -/
def processMethod (s : NodeState) (now : Nat) :
    RpcCall → Except String (RpcOut × NodeState)
  | .web3_clientVersion => .ok (.str ("IperChain/v0.1.0"), s)
  | .net_version => .ok (.str ("1337"), s)
  | .eth_chainId => .ok (.str ("0x539"), s)
  | .eth_blockNumber => .ok (.str ("0x" ++ hexString (s.nextBlockNumber - 1)), s)
  | .eth_getBlockByNumber n includeTransactions =>
    match s.blocks.get? n with
    | none => .error ("Block not found")
    | some b =>
      if includeTransactions then .ok (.blockObj b, s)
      else .ok (.blockObjTxHashes b (b.transactions.map Tx.hash), s)
  | .eth_getTransactionByHash h =>
    match s.transactions.find? (fun t => t.hash = h) with
    | none => .ok (.null, s)
    | some t => .ok (.tx t, s)
  | .eth_sendTransaction p =>
    match createTransaction s p now with
    | none => .error ("Cannot read nonce of undefined")
    | some (tx, s1) =>
      .ok (.str tx.hash,
        { s1 with pendingTransactions := s1.pendingTransactions ++ [tx] })
  | .eth_getTransactionReceipt h =>
    match s.transactions.find? (fun t => t.hash = h) with
    | none => .ok (.null, s)
    | some t =>
      .ok (.receipt
        { transactionHash := t.hash
          transactionIndex := "0x0"
          blockHash := t.blockHash.getD
            ("0x0000000000000000000000000000000000000000000000000000000000000000")
          blockNumber := t.blockNumber.getD 0
          «from» := t.«from»
          «to» := t.«to»
          cumulativeGasUsed := "0x5208"
          gasUsed := "0x5208"
          contractAddress := t.contractAddress
          logs := []
          status := "0x1" }, s)
  | .eth_call «to» data =>
    if jsTruthy «to» = false then .error ("To address is required")
    else
      match lookupEntry s.contracts («to».getD "") with
      | none => .ok (.str ("0x"), s)
      | some _ =>
        if jsTruthy data ∧ (data.getD "").startsWith ("0x70a08231") then
          .ok (.str ("0x0000000000000000000000000000000000000000000000056bc75e2d63100000"), s)
        else if jsTruthy data ∧ (data.getD "").startsWith ("0x06fdde03") then
          .ok (.str ("0x0000000000000000000000000000000000000000000000000000000000000020000000000000000000000000000000000000000000000000000000000000000a4970657220546f6b656e0000000000000000000000000000000000000000000000"), s)
        else if jsTruthy data ∧ (data.getD "").startsWith ("0x18160ddd") then
          .ok (.str ("0x00000000000000000000000000000000000000000000152d02c7e14af6800000"), s)
        else .ok (.str ("0x"), s)
  | .eth_accounts => .ok (.strList (s.accounts.map Prod.fst), s)
  | .eth_estimateGas => .ok (.str ("0x5208"), s)
  | .eth_getBalance a =>
    match getAccount s a with
    | some acct => .ok (.str ("0x" ++ hexOfInt acct.balance), s)
    | none => .ok (.str ("0x0"), s)
  | .eth_getCode a =>
    match lookupEntry s.contracts a with
    | some c => .ok (.str c.bytecode, s)
    | none => .ok (.str ("0x"), s)
  | .eth_sendRawTransaction raw =>
    match getAccount s DEFAULT_SENDER with
    | none => .error ("Cannot read nonce of undefined")
    | some acct =>
      let simpleTx : Tx :=
        { hash := "0x" ++ sha256hex raw
          «from» := DEFAULT_SENDER
          «to» := if containsSub raw ("6060604") then none
                else some ("0x123f681646d4a755815f9cb19e1acc8565a0c2ac")
          value := 0
          gas := "0x5208"
          gasPrice := "0x3b9aca00"
          input := raw
          nonce := acct.nonce
          blockNumber := none
          blockHash := none
          contractAddress := none }
      let s1 := { s with
        pendingTransactions := s.pendingTransactions ++ [simpleTx]
        accounts := setEntry s.accounts DEFAULT_SENDER { acct with nonce := acct.nonce + 1 } }
      let s2 := if s1.mining then s1 else mineBlock s1 now
      let s3 :=
        if simpleTx.«to» = none then
          let contractAddress :=
            "0x" ++ (sha256hex (simpleTx.hash ++ "0x" ++ hexString simpleTx.nonce)).take 40
          { s2 with
            contracts := setEntry s2.contracts contractAddress
              ({ bytecode := dummyBytecode, storage := [], creator := simpleTx.«from» }) }
        else s2
      .ok (.str simpleTx.hash, s3)
  | .evm_mine => .error ("mineBlocks is not defined")
  | .unknown _ => .ok (.null, s)

/-- A JSON-RPC response: either { id, result } or { id, error: {code, …} }. -/
inductive RpcResponse where
  | success (id : Option Nat) (result : RpcOut)
  | errorResp (id : Option Nat) (code : Int) (message : String)
deriving DecidableEq, Repr

/-- handleRPCRequest: none models an unparseable body (Parse error, id null);
otherwise dispatch through processMethod, wrapping a thrown exception into
the -32603 Internal error object and leaving the state unchanged. -/
def handleRPCRequest (s : NodeState) (now : Nat) :
    Option (Option Nat × RpcCall) → RpcResponse × NodeState
  | none => (.errorResp none (-32700) ("Parse error"), s)
  | some (id, call) =>
    match processMethod s now call with
    | .ok (out, s1) => (.success id out, s1)
    | .error _ => (.errorResp id (-32603) ("Internal error"), s)

/-! Concrete inputs shared by witnesses and counterexamples. -/

/-- Node state right after initGenesisBlock at timestamp 100. -/
def genesisState : NodeState := initGenesisBlock 100

/-- The first authority / first funded test account. -/
def producerAddr : String := "0x742d35Cc6634C0532925a3b844Bc454e4438f44e"

/-- The second authority / second funded test account. -/
def certifierAddr : String := "0x123f681646d4a755815f9cb19e1acc8565a0c2ac"

/-- A block shape with the informational fields fixed, for test inputs. -/
def testBlock (number : Nat) (hash parentHash miner : String) : Block :=
  { number := number, hash := hash, parentHash := parentHash, timestamp := 1,
    transactions := [], miner := miner, difficulty := "0x1", totalDifficulty := "0x1",
    size := "0x0", gasUsed := "0x0", gasLimit := "0x1000000" }

/-- A gossiped block with number 5 whose parent is the genesis block. -/
def c1badBlock : Block := testBlock 5 ("0xdead") ("0xgenesis-100") producerAddr

/-- A valid first block on top of genesis. -/
def c2block1 : Block := testBlock 1 ("0xb1") ("0xgenesis-100") producerAddr

/-- Chain of two blocks: genesis plus c2block1. -/
def c2state : NodeState := handleBlockMessage genesisState c2block1

/-- A second height-1 block whose parent is genesis, not the head c2block1. -/
def c2block2 : Block := testBlock 1 ("0xb2") ("0xgenesis-100") producerAddr

/-- eth_sendTransaction parameters: a small transfer between test accounts. -/
def c3params : TxParams :=
  { «from» := "0x742d35Cc6634C0532925a3b844Bc454e4438f44e"
    «to» := some ("0x123f681646d4a755815f9cb19e1acc8565a0c2ac")
    value := some 5
    gas := none
    gasPrice := none
    data := none }

/-- Result of submitting c3params at time 7 on the genesis state. -/
def c3submitted : Tx × NodeState :=
  (createTransaction genesisState c3params 7).getD
    (⟨"", "", none, 0, "", "", "", 0, none, none, none⟩, genesisState)

/-- Node state after the eth_sendTransaction RPC for c3params. -/
def c3state : NodeState :=
  ((processMethod genesisState 7 (.eth_sendTransaction c3params)).toOption.map
    Prod.snd).getD genesisState

/-- Genesis state with the periodic miner switched on (startMining). -/
def miningState : NodeState := { genesisState with mining := true }

/-- State after one eth_sendRawTransaction of the payload "aa" on miningState. -/
def c5state1 : NodeState :=
  ((processMethod miningState 0 (.eth_sendRawTransaction ("aa"))).toOption.map
    Prod.snd).getD miningState

/-- State after a second eth_sendRawTransaction of the same payload "aa". -/
def c5state2 : NodeState :=
  ((processMethod c5state1 1 (.eth_sendRawTransaction ("aa"))).toOption.map
    Prod.snd).getD miningState

/-- A gossiped transaction transferring twice the genesis balance. -/
def c7tx : Tx :=
  { hash := "0xt7"
    «from» := "0x742d35Cc6634C0532925a3b844Bc454e4438f44e"
    «to» := some ("0x123f681646d4a755815f9cb19e1acc8565a0c2ac")
    value := 2000000000000000000000
    gas := "0x5208"
    gasPrice := "0x3b9aca00"
    input := "0x"
    nonce := 0
    blockNumber := none
    blockHash := none
    contractAddress := none }

/-- Block produced from the pool containing c7tx. -/
def c7mined : NodeState := mineBlock (handleTransactionMessage genesisState c7tx) 5

/-- A block whose hash coincides with the stored genesis hash. -/
def c8block : Block := testBlock 7 ("0xgenesis-100") ("0xother") producerAddr

/-- eth_sendTransaction parameters naming a sender with no account record. -/
def c10params : TxParams :=
  { «from» := "0xnobody"
    «to» := some ("0x123f681646d4a755815f9cb19e1acc8565a0c2ac")
    value := some 5
    gas := none
    gasPrice := none
    data := none }

/-- A state with a nonempty pool whose nextBlockNumber points past the end
of the stored chain, so a production attempt advances the cursor but
produces nothing (the source throws at the parent lookup). -/
def c4orphanState : NodeState :=
  { genesisState with pendingTransactions := [c7tx], nextBlockNumber := 10 }

/-- The run of states reached by repeated production attempts from
c4orphanState: only the round-robin cursor moves. -/
def c4run (t : Nat) : NodeState :=
  { c4orphanState with currentAuthorityIndex := t % AUTHORITIES.length }

/-- The transaction index invariant: state.transactions is exactly the
concatenation of the transactions of the applied blocks, in chain order. -/
def TxIndexInv (s : NodeState) : Prop :=
  s.transactions = (s.blocks.map Block.transactions).flatten

/-- Nonce preservation between two account maps: every account present in
the first is present in the second with the same nonce. -/
def NoncePres (m m' : List (String × Account)) : Prop :=
  ∀ addr a, lookupEntry m addr = some a →
    ∃ a', lookupEntry m' addr = some a' ∧ a'.nonce = a.nonce

/-! Helper lemmas about association-list maps. -/

theorem lookupEntry_cons {α : Type} (q : String × α) (m : List (String × α))
    (k : String) :
    lookupEntry (q :: m) k = if q.1 = k then some q.2 else lookupEntry m k := by
  by_cases h : q.1 = k <;> simp [lookupEntry, List.find?_cons, h]

theorem setEntry_cons_ne {α : Type} (q : String × α) (m : List (String × α))
    (k : String) (v : α) (h : ¬ q.1 = k) :
    setEntry (q :: m) k v = q :: setEntry m k v := by
  simp only [setEntry, List.find?_cons, h, decide_False]
  split <;> simp_all [List.map_cons, h]

theorem lookupEntry_setEntry_self {α : Type} (m : List (String × α)) (k : String)
    (v : α) : lookupEntry (setEntry m k v) k = some v := by
  induction m with
  | nil => simp [setEntry, lookupEntry]
  | cons q m ih =>
    by_cases h : q.1 = k
    · simp only [setEntry, List.find?_cons, h, decide_True, Option.isSome_some,
        if_true, List.map_cons, if_pos h]
      simp [lookupEntry_cons]
    · rw [setEntry_cons_ne q m k v h, lookupEntry_cons, if_neg h, ih]

theorem lookupEntry_mapReplace_ne {α : Type} (m : List (String × α))
    (k k' : String) (v : α) (h : ¬ k' = k) :
    lookupEntry (m.map (fun p => if p.1 = k then (k, v) else p)) k'
      = lookupEntry m k' := by
  induction m with
  | nil => rfl
  | cons q m ih =>
    by_cases hq : q.1 = k
    · simp only [List.map_cons, if_pos hq, lookupEntry_cons]
      rw [if_neg (fun hk => h hk.symm), if_neg (fun hk => h (hq ▸ hk).symm), ih]
    · simp only [List.map_cons, if_neg hq, lookupEntry_cons, ih]

theorem lookupEntry_setEntry_ne {α : Type} (m : List (String × α)) (k k' : String)
    (v : α) (h : ¬ k' = k) :
    lookupEntry (setEntry m k v) k' = lookupEntry m k' := by
  unfold setEntry
  split
  · exact lookupEntry_mapReplace_ne m k k' v h
  · unfold lookupEntry
    rw [List.find?_append]
    have hkv : List.find? (fun p => decide (p.1 = k')) [(k, v)] = none := by
      have hd : decide (k = k') = false := decide_eq_false (fun hk : k = k' => h hk.symm)
      simp only [List.find?_cons, List.find?_nil]
      rw [hd]
    rw [hkv, Option.or_none]

theorem lookupEntry_append_left {α : Type} (m l : List (String × α)) (k : String)
    (a : α) (h : lookupEntry m k = some a) :
    lookupEntry (m ++ l) k = some a := by
  unfold lookupEntry at h ⊢
  rw [List.find?_append]
  rcases hf : m.find? (fun p => decide (p.1 = k)) with _ | p
  · rw [hf] at h; simp at h
  · rw [hf] at h
    rw [hf]
    simpa using h

/-! Helper lemmas about addBlock and mineBlock. -/

theorem addBlock_currentAuthorityIndex (s : NodeState) (b : Block) :
    (addBlock s b).currentAuthorityIndex = s.currentAuthorityIndex := by
  unfold addBlock; split <;> rfl

theorem addBlock_accounts (s : NodeState) (b : Block) :
    (addBlock s b).accounts = s.accounts := by
  unfold addBlock; split <;> rfl

theorem addBlock_of_hash_mem (s : NodeState) (b : Block)
    (h : ∃ p ∈ s.blocks, p.hash = b.hash) : addBlock s b = s := by
  unfold addBlock
  rw [if_pos]
  rw [List.find?_isSome]
  obtain ⟨p, hp, he⟩ := h
  exact ⟨p, hp, by simp [he]⟩

theorem txIndexInv_addBlock (s : NodeState) (b : Block) (h : TxIndexInv s) :
    TxIndexInv (addBlock s b) := by
  unfold addBlock
  split
  · exact h
  · unfold TxIndexInv at *
    simp [h]

/-- C8: re-delivering a block whose hash already exists in the chain is a
no-op on the whole node state, both directly through addBlock and through
the network block handler. -/
theorem c8_redelivery_idempotent (s : NodeState) (b : Block)
    (h : ∃ p ∈ s.blocks, p.hash = b.hash) :
    addBlock s b = s ∧ handleBlockMessage s b = s := by
  refine ⟨addBlock_of_hash_mem s b h, ?_⟩
  unfold handleBlockMessage
  split
  · exact addBlock_of_hash_mem s b h
  · rfl

theorem c8_redelivery_idempotent_witness :
    addBlock genesisState c8block = genesisState ∧
      handleBlockMessage genesisState c8block = genesisState :=
  c8_redelivery_idempotent genesisState c8block (by decide)

/-- C10: an eth_sendTransaction whose sender has no account record throws
inside createTransaction before any mutation; the RPC layer answers with
the structured -32603 error object and the node state is returned
unchanged (no transaction, no pool entry, no production, no account or
contract change). -/
theorem c10_unknown_sender (s : NodeState) (p : TxParams) (id : Option Nat)
    (now : Nat) (h : getAccount s p.«from» = none) :
    processMethod s now (.eth_sendTransaction p)
        = .error ("Cannot read nonce of undefined") ∧
      handleRPCRequest s now (some (id, .eth_sendTransaction p))
        = (.errorResp id (-32603) ("Internal error"), s) := by
  have hct : createTransaction s p now = none := by
    unfold createTransaction; rw [h]
  constructor
  · simp only [processMethod, hct]
  · simp only [handleRPCRequest, processMethod, hct]

theorem c10_unknown_sender_witness :
    processMethod genesisState 3 (.eth_sendTransaction c10params)
        = .error ("Cannot read nonce of undefined") ∧
      handleRPCRequest genesisState 3 (some (some 2, .eth_sendTransaction c10params))
        = (.errorResp (some 2) (-32603) ("Internal error"), genesisState) :=
  c10_unknown_sender genesisState c10params (some 2) 3 (by decide)

/-- C6 counterexample: an unknown RPC method is answered with a success
response whose result is null — not with a structured error object — while
the node state is left unchanged. -/
theorem c6_counterexample :
    handleRPCRequest genesisState 0 (some (some 1, .unknown ("eth_foo")))
      = (.success (some 1) .null, genesisState) := by
  rfl

/-- C6 amended: an unknown method is not an error: processMethod returns a
null result and leaves the state unchanged, and the dispatcher wraps it in
a success response; only an unparseable payload produces the structured
-32700 Parse error object (also with the state unchanged). -/
theorem c6_amended (s : NodeState) (now : Nat) (name : String) (id : Option Nat) :
    processMethod s now (.unknown name) = .ok (.null, s) ∧
      handleRPCRequest s now (some (id, .unknown name)) = (.success id .null, s) ∧
      handleRPCRequest s now none = (.errorResp none (-32700) ("Parse error"), s) :=
  ⟨rfl, rfl, rfl⟩

/-- C1 counterexample: on the genesis chain, a block with number 5 (the
current height is 1) passes validation and is appended by addBlock, leaving
a chain whose numbers 0, 5 are not contiguous; so addBlock does not enforce
the height/linkage side of the claimed iff. -/
theorem c1_counterexample :
    validateBlock genesisState c1badBlock = true ∧
      c1badBlock.number ≠ genesisState.nextBlockNumber ∧
      (addBlock genesisState c1badBlock).blocks.map Block.number = [0, 5] ∧
      handleBlockMessage genesisState c1badBlock ≠ genesisState := by
  decide

/-- C1 amended: addBlock appends the block if and only if no block with the
same hash is already stored; it checks neither height contiguity nor
parent-hash linkage, and only a duplicate hash makes the call a no-op. -/
theorem c1_amended (s : NodeState) (b : Block) :
    ((addBlock s b).blocks.length = s.blocks.length + 1 ↔
        ∀ p ∈ s.blocks, p.hash ≠ b.hash) ∧
      ((∃ p ∈ s.blocks, p.hash = b.hash) → addBlock s b = s) := by
  refine ⟨?_, addBlock_of_hash_mem s b⟩
  unfold addBlock
  by_cases h : (s.blocks.find? (fun p => p.hash = b.hash)).isSome
  · rw [if_pos h]
    rw [List.find?_isSome] at h
    obtain ⟨p, hp, he⟩ := h
    simp only [decide_eq_true_eq] at he
    constructor
    · intro hlen; omega
    · intro hall; exact absurd he (hall p hp)
  · rw [if_neg h]
    constructor
    · intro _
      rw [List.find?_isSome] at h
      push_neg at h
      intro p hp
      have := h p hp
      simpa using this
    · intro _; simp

/-- C2 counterexample: on a two-block chain whose head is c2block1, the
block c2block2 (number 1, parent the genesis block, an authority miner) is
accepted and applied even though its parent is not the existing head and it
is not genesis; the validator's parent check is weaker than claimed. -/
theorem c2_counterexample :
    c2state.blocks.map Block.hash = ["0xgenesis-100", "0xb1"] ∧
      c2block2.parentHash = "0xgenesis-100" ∧
      c2block2.number ≠ 0 ∧
      validateBlock c2state c2block2 = true ∧
      (handleBlockMessage c2state c2block2).blocks.map Block.hash
        = ["0xgenesis-100", "0xb1", "0xb2"] := by
  decide

/-- C2 amended: the validator accepts a received block exactly when its hash
and parentHash are nonempty, its parent is some block already anywhere in
the chain or its number is 0, and its miner is in the authority set; any
block failing these checks leaves the chain (and whole state) unchanged. -/
theorem c2_amended (s : NodeState) (b : Block) :
    (validateBlock s b = true ↔
        b.hash ≠ "" ∧ b.parentHash ≠ "" ∧
          ((∃ p ∈ s.blocks, p.hash = b.parentHash) ∨ b.number = 0) ∧
          b.miner ∈ AUTHORITIES) ∧
      (validateBlock s b = false → handleBlockMessage s b = s) := by
  constructor
  · unfold validateBlock
    split
    · simp_all [not_or]
      tauto
    · split
      · rename_i hpresent hpar
        simp only [Bool.false_eq_true, false_iff, not_and, not_or]
        intro h1 h2 hor
        exfalso
        obtain ⟨hnone, hnum⟩ := hpar
        rw [List.find?_eq_none] at hnone
        rcases hor with ⟨p, hp, he⟩ | hnum0
        · exact absurd (by simpa using he) (by simpa using hnone p hp)
        · exact hnum hnum0
      · split
        · rename_i hpresent hpar hmine
          simp only [Bool.false_eq_true, false_iff, not_and]
          intro _ _ _
          exact fun hm => hmine (by simpa [List.elem_iff] using hm)
        · rename_i hpresent hpar hmine
          simp only [true_iff]
          rw [not_or] at hpresent
          refine ⟨hpresent.1, hpresent.2, ?_, by simpa [List.elem_iff] using hmine⟩
          rw [Classical.not_and_iff_or_not_not] at hpar
          rcases hpar with hfind | hnum
          · left
            have : (s.blocks.find? (fun p => p.hash = b.parentHash)).isSome := by
              rcases hopt : s.blocks.find? (fun p => p.hash = b.parentHash) with _ | p
              · exact absurd hopt hfind
              · rw [hopt]; rfl
            rw [List.find?_isSome] at this
            obtain ⟨p, hp, he⟩ := this
            exact ⟨p, hp, by simpa using he⟩
          · right; simpa using hnum
  · intro h
    unfold handleBlockMessage
    rw [if_neg (by simp [h])]

theorem c2_amended_witness :
    (validateBlock genesisState c1badBlock = true ↔
        c1badBlock.hash ≠ "" ∧ c1badBlock.parentHash ≠ "" ∧
          ((∃ p ∈ genesisState.blocks, p.hash = c1badBlock.parentHash) ∨
            c1badBlock.number = 0) ∧
          c1badBlock.miner ∈ AUTHORITIES) ∧
      (validateBlock genesisState c1badBlock = false →
        handleBlockMessage genesisState c1badBlock = genesisState) :=
  c2_amended genesisState c1badBlock

theorem c1_amended_witness :
    (∃ p ∈ genesisState.blocks, p.hash = c8block.hash) ∧
      addBlock genesisState c8block = genesisState :=
  ⟨by decide, (c1_amended genesisState c8block).2 (by decide)⟩

/-! Nonce-preservation machinery for the mining path. -/

theorem noncePres_refl (m : List (String × Account)) : NoncePres m m :=
  fun _ a h => ⟨a, h, rfl⟩

theorem noncePres_trans {m1 m2 m3 : List (String × Account)}
    (h1 : NoncePres m1 m2) (h2 : NoncePres m2 m3) : NoncePres m1 m3 := by
  intro addr a h
  obtain ⟨b, hb, hnb⟩ := h1 addr a h
  obtain ⟨c, hc, hnc⟩ := h2 addr b hb
  exact ⟨c, hc, hnc.trans hnb⟩

theorem noncePres_setEntry (m : List (String × Account)) (k : String)
    (b c : Account) (hb : lookupEntry m k = some b) (hn : c.nonce = b.nonce) :
    NoncePres m (setEntry m k c) := by
  intro addr a ha
  by_cases hk : addr = k
  · subst hk
    rw [hb] at ha
    cases ha
    exact ⟨c, lookupEntry_setEntry_self m addr c, hn⟩
  · exact ⟨a, by rw [lookupEntry_setEntry_ne m k addr c hk]; exact ha, rfl⟩

theorem noncePres_append (m l : List (String × Account)) : NoncePres m (m ++ l) :=
  fun addr a h => ⟨a, lookupEntry_append_left m l addr a h, rfl⟩

/-- The accounts component of processMineTx, written out. -/
theorem processMineTx_accounts (accounts : List (String × Account))
    (contracts : List (String × Contract)) (bn : Nat) (bh : String) (tx : Tx) :
    (processMineTx accounts contracts bn bh tx).1 =
      if jsTruthy tx.«to» ∧ 0 < tx.value then
        (let afterDebit :=
          match lookupEntry accounts tx.«from» with
          | some a => setEntry accounts tx.«from» { a with balance := a.balance - tx.value }
          | none => accounts
         match lookupEntry afterDebit (tx.«to».getD "") with
         | some a => setEntry afterDebit (tx.«to».getD "")
             { a with balance := a.balance + tx.value }
         | none => afterDebit ++ [(tx.«to».getD "", ⟨tx.value, 0⟩)])
      else accounts := rfl

theorem noncePres_processMineTx (accounts : List (String × Account))
    (contracts : List (String × Contract)) (bn : Nat) (bh : String) (tx : Tx) :
    NoncePres accounts (processMineTx accounts contracts bn bh tx).1 := by
  rw [processMineTx_accounts]
  split
  · have h1 : NoncePres accounts
        (match lookupEntry accounts tx.«from» with
          | some a => setEntry accounts tx.«from» { a with balance := a.balance - tx.value }
          | none => accounts) := by
      rcases ha : lookupEntry accounts tx.«from» with _ | a
      · simp only [ha]; exact noncePres_refl accounts
      · simp only [ha]; exact noncePres_setEntry accounts tx.«from» a _ ha rfl
    refine noncePres_trans h1 ?_
    rcases hb : lookupEntry
        (match lookupEntry accounts tx.«from» with
          | some a => setEntry accounts tx.«from» { a with balance := a.balance - tx.value }
          | none => accounts) (tx.«to».getD "") with _ | a2
    · simp only [hb]; exact noncePres_append _ _
    · simp only [hb]; exact noncePres_setEntry _ _ a2 _ hb rfl
  · exact noncePres_refl accounts

theorem noncePres_mineFold (bn : Nat) (bh : String) (l : List Tx) :
    ∀ acc : List (String × Account) × List (String × Contract) × List Tx,
      NoncePres acc.1
        ((l.foldl (fun acc tx =>
          ((processMineTx acc.1 acc.2.1 bn bh tx).1,
           (processMineTx acc.1 acc.2.1 bn bh tx).2.1,
           acc.2.2 ++ [(processMineTx acc.1 acc.2.1 bn bh tx).2.2])) acc).1) := by
  induction l with
  | nil => intro acc; exact noncePres_refl _
  | cons tx l ih =>
    intro acc
    rw [List.foldl_cons]
    refine noncePres_trans ?_ (ih _)
    exact noncePres_processMineTx acc.1 acc.2.1 bn bh tx

theorem noncePres_mineBlock (s : NodeState) (now : Nat) :
    NoncePres s.accounts (mineBlock s now).accounts := by
  unfold mineBlock
  split
  · exact noncePres_refl _
  · simp only []
    split
    · exact noncePres_refl _
    · rw [addBlock_accounts]
      exact noncePres_mineFold s.nextBlockNumber
        ("0x" ++ sha256hex ("block-" ++ toString s.nextBlockNumber ++ "-" ++ toString now))
        s.pendingTransactions (s.accounts, s.contracts, [])

/-- C3 counterexample: submitting c3params already sets the sender's nonce
to 1 while the transaction still sits in the pool, and mining the block
leaves the nonce at 1 — so the increment happens at submission, not as
part of block application. -/
theorem c3_counterexample :
    (getAccount genesisState producerAddr).map Account.nonce = some 0 ∧
      (getAccount c3state producerAddr).map Account.nonce = some 1 ∧
      c3state.pendingTransactions.length = 1 ∧
      (getAccount (mineBlock c3state 8) producerAddr).map Account.nonce = some 1 := by
  decide

/-- C3 amended: the sender's nonce is incremented exactly once at
transaction creation time (createTransaction, i.e. at submission), and
block application preserves the nonce of every existing account: mining
debits/credits balances and creates contracts but never changes a nonce. -/
theorem c3_amended :
    (∀ (s : NodeState) (p : TxParams) (now : Nat) (tx : Tx) (s' : NodeState),
        createTransaction s p now = some (tx, s') →
        ∃ a, getAccount s p.«from» = some a ∧ tx.nonce = a.nonce ∧
          getAccount s' p.«from» = some { balance := a.balance, nonce := a.nonce + 1 }) ∧
      (∀ (s : NodeState) (now : Nat), NoncePres s.accounts (mineBlock s now).accounts) := by
  refine ⟨?_, noncePres_mineBlock⟩
  intro s p now tx s' h
  unfold createTransaction at h
  rcases ha : getAccount s p.«from» with _ | a
  · rw [ha] at h; exact absurd h (by simp)
  · rw [ha] at h
    simp only [Option.some.injEq, Prod.mk.injEq] at h
    obtain ⟨htx, hs⟩ := h
    subst htx
    subst hs
    refine ⟨a, rfl, rfl, ?_⟩
    show lookupEntry (setEntry s.accounts p.«from» { a with nonce := a.nonce + 1 }) p.«from» = _
    rw [lookupEntry_setEntry_self]

theorem c3_amended_witness :
    (∃ a, getAccount genesisState c3params.«from» = some a ∧
        c3submitted.1.nonce = a.nonce ∧
        getAccount c3submitted.2 c3params.«from»
          = some { balance := a.balance, nonce := a.nonce + 1 }) ∧
      (∃ a', lookupEntry (mineBlock c3state 8).accounts producerAddr = some a' ∧
        a'.nonce = 1) :=
  ⟨c3_amended.1 genesisState c3params 7 c3submitted.1 c3submitted.2 (by decide),
   c3_amended.2 c3state 8 producerAddr ⟨1000000000000000000000, 1⟩ (by decide)⟩

/-- C5 counterexample: with the periodic miner on, sending the same raw
payload twice through eth_sendRawTransaction leaves two pending entries
with the same transaction hash — the dedup claimed for every submission
path does not happen on this path. -/
theorem c5_counterexample :
    c5state2.pendingTransactions.map Tx.hash = ["0xaa", "0xaa"] ∧
      (c5state2.pendingTransactions.filter (fun t => t.hash = "0xaa")).length = 2 := by
  decide

/-- C5 amended: only the gossip receipt path is idempotent under duplicate
hashes (it inserts exactly when the hash is absent); eth_sendRawTransaction
appends a pool entry unconditionally on every call, so a duplicate raw
payload yields a duplicate pool entry. -/
theorem c5_amended :
    (∀ (s : NodeState) (tx : Tx), (∃ t ∈ s.pendingTransactions, t.hash = tx.hash) →
        handleTransactionMessage s tx = s) ∧
      (∀ (s : NodeState) (tx : Tx), (∀ t ∈ s.pendingTransactions, t.hash ≠ tx.hash) →
        (handleTransactionMessage s tx).pendingTransactions
          = s.pendingTransactions ++ [tx]) ∧
      (∀ (s : NodeState) (raw : String) (now : Nat) (out : RpcOut) (s' : NodeState),
        s.mining = true →
        processMethod s now (.eth_sendRawTransaction raw) = .ok (out, s') →
        s'.pendingTransactions.length = s.pendingTransactions.length + 1) := by
  refine ⟨?_, ?_, ?_⟩
  · intro s tx h
    unfold handleTransactionMessage
    rw [if_pos]
    rw [List.find?_isSome]
    obtain ⟨t, ht, he⟩ := h
    exact ⟨t, ht, by simp [he]⟩
  · intro s tx h
    unfold handleTransactionMessage
    rw [if_neg]
    intro hsome
    rw [List.find?_isSome] at hsome
    obtain ⟨t, ht, he⟩ := hsome
    exact absurd (by simpa using he) (h t ht)
  · intro s raw now out s' hm hok
    simp only [processMethod] at hok
    rcases ha : getAccount s DEFAULT_SENDER with _ | acct
    · rw [ha] at hok; exact absurd hok (by simp)
    · rw [ha] at hok
      simp only [hm, if_true] at hok
      split at hok <;>
        · simp only [Except.ok.injEq, Prod.mk.injEq] at hok
          rw [← hok.2]
          simp

theorem c5_amended_witness :
    handleTransactionMessage c5state2 (c5state2.pendingTransactions.headD c7tx)
        = c5state2 ∧
      (handleTransactionMessage genesisState c7tx).pendingTransactions
        = genesisState.pendingTransactions ++ [c7tx] ∧
      c5state1.pendingTransactions.length
        = miningState.pendingTransactions.length + 1 := by
  refine ⟨c5_amended.1 c5state2 _ (by decide), c5_amended.2.1 genesisState c7tx (by decide), ?_⟩
  exact c5_amended.2.2 miningState ("aa") 0 (.str ("0xaa")) c5state1 (by decide) rfl

/-- C7 counterexample: a gossiped transfer of twice the genesis balance is
accepted into the pool and mined; the sender's stored balance afterwards is
the negative value -1000000000000000000000, so balances are not unsigned
and can be driven below zero. -/
theorem c7_counterexample :
    (getAccount c7mined producerAddr).map Account.balance
        = some (-1000000000000000000000) ∧
      ((-1000000000000000000000 : Int) < 0) := by
  decide

/-- C7 amended: balances are signed arbitrary-precision integers and the
mining loop debits the sender unconditionally — with no sufficiency check —
so whenever the transferred value exceeds the sender's balance the stored
balance becomes negative. -/
theorem c7_amended (accounts : List (String × Account))
    (contracts : List (String × Contract)) (bn : Nat) (bh : String) (tx : Tx)
    (a : Account) (hto : jsTruthy tx.«to» = true) (hv : 0 < tx.value)
    (hne : tx.«to» ≠ some tx.«from»)
    (ha : lookupEntry accounts tx.«from» = some a) :
    lookupEntry (processMineTx accounts contracts bn bh tx).1 tx.«from»
        = some { balance := a.balance - tx.value, nonce := a.nonce } ∧
      (a.balance < tx.value →
        ∃ a', lookupEntry (processMineTx accounts contracts bn bh tx).1 tx.«from»
            = some a' ∧ a'.balance < 0) := by
  rcases hto2 : tx.«to» with _ | r
  · rw [hto2] at hto; exact absurd hto (by simp [jsTruthy])
  · have hr : ¬ tx.«from» = r := by
      intro he; exact hne (by rw [hto2, he])
    have hmain : lookupEntry (processMineTx accounts contracts bn bh tx).1 tx.«from»
        = some { balance := a.balance - tx.value, nonce := a.nonce } := by
      rw [processMineTx_accounts]
      rw [if_pos ⟨hto, hv⟩]
      simp only [ha, hto2, Option.getD_some]
      rcases hb : lookupEntry
          (setEntry accounts tx.«from» { a with balance := a.balance - tx.value }) r
          with _ | a2
      · simp only [hb]
        exact lookupEntry_append_left _ _ _ _ (lookupEntry_setEntry_self _ _ _)
      · simp only [hb]
        rw [lookupEntry_setEntry_ne _ r tx.«from» _ hr]
        exact lookupEntry_setEntry_self _ _ _
    refine ⟨hmain, fun hlt => ⟨_, hmain, ?_⟩⟩
    simp only []
    omega

theorem c7_amended_witness :
    lookupEntry
        (processMineTx genesisState.accounts genesisState.contracts 1 ("0xbh") c7tx).1
        c7tx.«from»
        = some { balance := (1000000000000000000000 : Int) - c7tx.value, nonce := 0 } ∧
      ((1000000000000000000000 : Int) < c7tx.value →
        ∃ a', lookupEntry
            (processMineTx genesisState.accounts genesisState.contracts 1 ("0xbh") c7tx).1
            c7tx.«from» = some a' ∧ a'.balance < 0) :=
  c7_amended genesisState.accounts genesisState.contracts 1 ("0xbh") c7tx
    ⟨1000000000000000000000, 0⟩ (by decide) (by decide) (by decide) (by decide)

/-! Round-robin authority rotation (C4). -/

theorem mineBlock_empty (s : NodeState) (now : Nat)
    (h : s.pendingTransactions = []) : mineBlock s now = s := by
  unfold mineBlock
  rw [if_pos (by simp [h])]

theorem mineBlock_cursor (s : NodeState) (now : Nat)
    (h : s.pendingTransactions ≠ []) :
    (mineBlock s now).currentAuthorityIndex
      = (s.currentAuthorityIndex + 1) % AUTHORITIES.length := by
  unfold mineBlock
  rw [if_neg (by simpa [List.length_eq_zero] using h)]
  simp only []
  split
  · rfl
  · rw [addBlock_currentAuthorityIndex]

theorem handleBlockMessage_cursor (s : NodeState) (b : Block) :
    (handleBlockMessage s b).currentAuthorityIndex = s.currentAuthorityIndex := by
  unfold handleBlockMessage
  split
  · exact addBlock_currentAuthorityIndex s b
  · rfl

theorem mineBlock_miner (s : NodeState) (now : Nat)
    (hgrow : (mineBlock s now).blocks.length = s.blocks.length + 1) :
    (mineBlock s now).blocks.getLast?.map Block.miner
      = some (AUTHORITIES.getD s.currentAuthorityIndex "") := by
  unfold mineBlock at hgrow ⊢
  by_cases hp : s.pendingTransactions.length = 0
  · rw [if_pos hp] at hgrow; omega
  · rw [if_neg hp] at hgrow ⊢
    simp only [] at hgrow ⊢
    split at hgrow
    · simp at hgrow
    · rename_i parent hget
      unfold addBlock at hgrow ⊢
      split at hgrow
      · simp at hgrow
      · rename_i hdup
        rw [if_neg hdup]
        simp [List.getLast?_concat]

theorem countModFormula (K : Nat) (hK : 0 < K) :
    ∀ (N j : Nat), j < K →
      ((List.range N).map (fun t => t % K)).count j
        = N / K + (if j < N % K then 1 else 0) := by
  intro N
  induction N with
  | zero => intro j hj; simp
  | succ N ih =>
    intro j hj
    rw [List.range_succ, List.map_append, List.count_append, ih j hj]
    have hsingle : (([N].map (fun t => t % K)).count j) = if N % K = j then 1 else 0 := by
      simp [List.count_cons, beq_iff_eq]
    rw [hsingle]
    have hc : N % K < K := Nat.mod_lt N hK
    have hN : K * (N / K) + N % K = N := Nat.div_add_mod N K
    by_cases hck : N % K + 1 = K
    · have hNK : N + 1 = K * (N / K + 1) := by rw [Nat.mul_succ]; omega
      have e1 : (N + 1) / K = N / K + 1 := by
        rw [hNK]; exact Nat.mul_div_cancel_left (N / K + 1) hK
      have e2 : (N + 1) % K = 0 := by rw [hNK]; exact Nat.mul_mod_right K (N / K + 1)
      rw [e1, e2]
      split_ifs <;> omega
    · have hck2 : N % K + 1 < K := by omega
      have hNK : N + 1 = K * (N / K) + (N % K + 1) := by omega
      have e1 : (N + 1) / K = N / K := by
        rw [hNK, Nat.mul_add_div hK]
        simp [Nat.div_eq_of_lt hck2]
      have e2 : (N + 1) % K = N % K + 1 := by
        rw [hNK, Nat.mul_add_mod]
        exact Nat.mod_eq_of_lt hck2
      rw [e1, e2]
      split_ifs <;> omega

/-- C4: the PoA rotation is a fixed round-robin with wrap-around and no
skipping.  For any run of successive successful local productions (pool
nonempty at every step), the cursor observed at step t is t mod K when the
run starts at cursor 0, each authority index j < K is selected N/K or
N/K + 1 times over the first N productions, a production attempt that finds
the pool empty changes nothing, validating an externally received block
never moves the cursor, a production attempt on a nonempty pool advances
the cursor exactly once modulo K, and a locally produced (appended) block
is attributed to the authority at the pre-advance cursor. -/
theorem c4_round_robin :
    (∀ (f : Nat → NodeState) (nows : Nat → Nat),
        (∀ t, (f t).pendingTransactions ≠ []) →
        (∀ t, f (t + 1) = mineBlock (f t) (nows t)) →
        (f 0).currentAuthorityIndex = 0 →
        (∀ t, (f t).currentAuthorityIndex = t % AUTHORITIES.length) ∧
          ∀ N j, j < AUTHORITIES.length →
            (((List.range N).map (fun t => (f t).currentAuthorityIndex)).count j
                = N / AUTHORITIES.length ∨
              ((List.range N).map (fun t => (f t).currentAuthorityIndex)).count j
                = N / AUTHORITIES.length + 1)) ∧
      (∀ (s : NodeState) (now : Nat), s.pendingTransactions = [] →
        mineBlock s now = s) ∧
      (∀ (s : NodeState) (b : Block),
        (handleBlockMessage s b).currentAuthorityIndex = s.currentAuthorityIndex) ∧
      (∀ (s : NodeState) (now : Nat), s.pendingTransactions ≠ [] →
        (mineBlock s now).currentAuthorityIndex
          = (s.currentAuthorityIndex + 1) % AUTHORITIES.length) ∧
      (∀ (s : NodeState) (now : Nat),
        (mineBlock s now).blocks.length = s.blocks.length + 1 →
        (mineBlock s now).blocks.getLast?.map Block.miner
          = some (AUTHORITIES.getD s.currentAuthorityIndex "")) := by
  have hK : 0 < AUTHORITIES.length := by decide
  refine ⟨?_, mineBlock_empty, handleBlockMessage_cursor, mineBlock_cursor, mineBlock_miner⟩
  intro f nows hpend hstep h0
  have hcur : ∀ t, (f t).currentAuthorityIndex = t % AUTHORITIES.length := by
    intro t
    induction t with
    | zero => simpa using h0
    | succ t ih =>
      rw [hstep t, mineBlock_cursor (f t) (nows t) (hpend t), ih, Nat.mod_add_mod]
  refine ⟨hcur, ?_⟩
  intro N j hj
  have hmap : (List.range N).map (fun t => (f t).currentAuthorityIndex)
      = (List.range N).map (fun t => t % AUTHORITIES.length) :=
    List.map_congr_left (fun t _ => hcur t)
  rw [hmap, countModFormula AUTHORITIES.length hK N j hj]
  split_ifs <;> omega

theorem c4_run_pending (t : Nat) : (c4run t).pendingTransactions ≠ [] := by
  simp [c4run, c4orphanState]

theorem c4_run_step (t : Nat) : c4run (t + 1) = mineBlock (c4run t) 0 := by
  have h1 : mineBlock (c4run t) 0
      = { c4run t with
          currentAuthorityIndex :=
            ((c4run t).currentAuthorityIndex + 1) % AUTHORITIES.length } := by
    unfold mineBlock
    rw [if_neg (by simp [c4run, c4orphanState])]
    simp only []
    split
    · rfl
    · rename_i parent hget
      exact absurd hget (by simp [c4run, c4orphanState, genesisState, initGenesisBlock])
  rw [h1]
  show c4run (t + 1)
      = { c4orphanState with
          currentAuthorityIndex := (t % AUTHORITIES.length + 1) % AUTHORITIES.length }
  unfold c4run
  rw [Nat.mod_add_mod]

theorem c4_round_robin_witness :
    ((c4run 5).currentAuthorityIndex = 5 % AUTHORITIES.length) ∧
      ((((List.range 9).map (fun t => (c4run t).currentAuthorityIndex)).count 1
          = 9 / AUTHORITIES.length) ∨
        (((List.range 9).map (fun t => (c4run t).currentAuthorityIndex)).count 1
          = 9 / AUTHORITIES.length + 1)) ∧
      mineBlock genesisState 4 = genesisState ∧
      (handleBlockMessage genesisState c2block1).currentAuthorityIndex
        = genesisState.currentAuthorityIndex ∧
      (mineBlock c3state 8).currentAuthorityIndex
        = (c3state.currentAuthorityIndex + 1) % AUTHORITIES.length ∧
      (mineBlock c3state 8).blocks.getLast?.map Block.miner
        = some (AUTHORITIES.getD c3state.currentAuthorityIndex "") := by
  have hrun := c4_round_robin.1 c4run (fun _ => 0) c4_run_pending
    (fun t => c4_run_step t) (by decide)
  exact ⟨hrun.1 5, hrun.2 9 1 (by decide),
    c4_round_robin.2.1 genesisState 4 rfl,
    c4_round_robin.2.2.1 genesisState c2block1,
    c4_round_robin.2.2.2.1 c3state 8 (by decide),
    c4_round_robin.2.2.2.2 c3state 8 (by decide)⟩

/-! Transaction index invariant (C9). -/

theorem txIndexInv_initGenesisBlock (ts : Nat) : TxIndexInv (initGenesisBlock ts) := rfl

theorem txIndexInv_handleTransactionMessage (s : NodeState) (tx : Tx)
    (h : TxIndexInv s) : TxIndexInv (handleTransactionMessage s tx) := by
  unfold handleTransactionMessage
  split
  · exact h
  · exact h

theorem txIndexInv_handleBlockMessage (s : NodeState) (b : Block)
    (h : TxIndexInv s) : TxIndexInv (handleBlockMessage s b) := by
  unfold handleBlockMessage
  split
  · exact txIndexInv_addBlock s b h
  · exact h

theorem txIndexInv_of_eq (s s' : NodeState) (hb : s'.blocks = s.blocks)
    (ht : s'.transactions = s.transactions) (h : TxIndexInv s) : TxIndexInv s' := by
  show s'.transactions = (s'.blocks.map Block.transactions).flatten
  rw [ht, hb]
  exact h

theorem txIndexInv_mineBlock (s : NodeState) (now : Nat) (h : TxIndexInv s) :
    TxIndexInv (mineBlock s now) := by
  unfold mineBlock
  split
  · exact h
  · simp only []
    split
    · exact h
    · exact txIndexInv_addBlock _ _ h

theorem createTransaction_fields (s : NodeState) (p : TxParams) (now : Nat)
    (tx : Tx) (s1 : NodeState) (h : createTransaction s p now = some (tx, s1)) :
    s1.blocks = s.blocks ∧ s1.transactions = s.transactions := by
  unfold createTransaction at h
  rcases ha : getAccount s p.«from» with _ | a
  · rw [ha] at h; simp at h
  · rw [ha] at h
    simp only [Option.some.injEq, Prod.mk.injEq] at h
    rw [← h.2]
    exact ⟨rfl, rfl⟩

theorem txIndexInv_processMethod (s : NodeState) (now : Nat) (c : RpcCall)
    (out : RpcOut) (s' : NodeState)
    (hok : processMethod s now c = .ok (out, s')) (h : TxIndexInv s) :
    TxIndexInv s' := by
  cases c <;> simp only [processMethod] at hok
  case web3_clientVersion =>
    simp only [Except.ok.injEq, Prod.mk.injEq] at hok; rw [← hok.2]; exact h
  case net_version =>
    simp only [Except.ok.injEq, Prod.mk.injEq] at hok; rw [← hok.2]; exact h
  case eth_chainId =>
    simp only [Except.ok.injEq, Prod.mk.injEq] at hok; rw [← hok.2]; exact h
  case eth_blockNumber =>
    simp only [Except.ok.injEq, Prod.mk.injEq] at hok; rw [← hok.2]; exact h
  case eth_getBlockByNumber n incl =>
    split at hok
    · exact absurd hok (by simp)
    · split at hok <;>
        (simp only [Except.ok.injEq, Prod.mk.injEq] at hok; rw [← hok.2]; exact h)
  case eth_getTransactionByHash txh =>
    split at hok <;>
      (simp only [Except.ok.injEq, Prod.mk.injEq] at hok; rw [← hok.2]; exact h)
  case eth_sendTransaction p =>
    rcases hct : createTransaction s p now with _ | pr
    · rw [hct] at hok; simp at hok
    · rw [hct] at hok
      simp only [Except.ok.injEq, Prod.mk.injEq] at hok
      obtain ⟨hb, ht⟩ := createTransaction_fields s p now pr.1 pr.2 (by rw [hct])
      rw [← hok.2]
      show pr.2.transactions = _
      rw [ht, hb]
      exact h
  case eth_getTransactionReceipt txh =>
    split at hok <;>
      (simp only [Except.ok.injEq, Prod.mk.injEq] at hok; rw [← hok.2]; exact h)
  case eth_call cto cdata =>
    split at hok
    · exact absurd hok (by simp)
    · split at hok
      · simp only [Except.ok.injEq, Prod.mk.injEq] at hok; rw [← hok.2]; exact h
      · split at hok
        · simp only [Except.ok.injEq, Prod.mk.injEq] at hok; rw [← hok.2]; exact h
        · split at hok
          · simp only [Except.ok.injEq, Prod.mk.injEq] at hok; rw [← hok.2]; exact h
          · split at hok <;>
              (simp only [Except.ok.injEq, Prod.mk.injEq] at hok; rw [← hok.2]; exact h)
  case eth_accounts =>
    simp only [Except.ok.injEq, Prod.mk.injEq] at hok; rw [← hok.2]; exact h
  case eth_estimateGas =>
    simp only [Except.ok.injEq, Prod.mk.injEq] at hok; rw [← hok.2]; exact h
  case eth_getBalance a =>
    split at hok <;>
      (simp only [Except.ok.injEq, Prod.mk.injEq] at hok; rw [← hok.2]; exact h)
  case eth_getCode a =>
    split at hok <;>
      (simp only [Except.ok.injEq, Prod.mk.injEq] at hok; rw [← hok.2]; exact h)
  case eth_sendRawTransaction raw =>
    rcases ha : getAccount s DEFAULT_SENDER with _ | acct
    · rw [ha] at hok; simp at hok
    · rw [ha] at hok
      simp only [Except.ok.injEq, Prod.mk.injEq] at hok
      rw [← hok.2]
      repeat' split
      all_goals first
        | exact h
        | exact txIndexInv_of_eq _ _ rfl rfl (txIndexInv_mineBlock _ now h)
  case evm_mine => exact absurd hok (by simp)
  case unknown name =>
    simp only [Except.ok.injEq, Prod.mk.injEq] at hok; rw [← hok.2]; exact h

theorem txIndexInv_handleRPCRequest (s : NodeState) (now : Nat)
    (req : Option (Option Nat × RpcCall)) (h : TxIndexInv s) :
    TxIndexInv (handleRPCRequest s now req).2 := by
  match req with
  | none => exact h
  | some (id, call) =>
    simp only [handleRPCRequest]
    rcases hpm : processMethod s now call with e | pr
    · simp only [hpm]; exact h
    · simp only [hpm]
      exact txIndexInv_processMethod s now call pr.1 pr.2 (by rw [hpm]) h

/-- C9: in every state whose transaction index lists exactly the
transactions of the applied blocks (an invariant established at genesis and
preserved by every entry point: the two gossip handlers and the whole RPC
dispatcher), eth_getTransactionReceipt returns a success-status receipt
exactly when the queried hash appears in some applied block, and returns a
null result — never an error, with the state unchanged — otherwise. -/
theorem c9_receipt :
    (∀ (s : NodeState) (txh : String) (now : Nat), TxIndexInv s →
        (processMethod s now (.eth_getTransactionReceipt txh) = .ok (.null, s) ↔
          ¬ ∃ b ∈ s.blocks, ∃ t ∈ b.transactions, t.hash = txh) ∧
        ((∃ r, processMethod s now (.eth_getTransactionReceipt txh)
            = .ok (.receipt r, s) ∧ r.status = "0x1") ↔
          ∃ b ∈ s.blocks, ∃ t ∈ b.transactions, t.hash = txh)) ∧
      (∀ ts, TxIndexInv (initGenesisBlock ts)) ∧
      (∀ s b, TxIndexInv s → TxIndexInv (handleBlockMessage s b)) ∧
      (∀ s tx, TxIndexInv s → TxIndexInv (handleTransactionMessage s tx)) ∧
      (∀ s now req, TxIndexInv s → TxIndexInv (handleRPCRequest s now req).2) := by
  refine ⟨?_, txIndexInv_initGenesisBlock, txIndexInv_handleBlockMessage,
    txIndexInv_handleTransactionMessage, txIndexInv_handleRPCRequest⟩
  intro s txh now hinv
  have hinv' : s.transactions = (s.blocks.map Block.transactions).flatten := hinv
  have hmem : (∃ t ∈ s.transactions, t.hash = txh) ↔
      (∃ b ∈ s.blocks, ∃ t ∈ b.transactions, t.hash = txh) := by
    rw [hinv']
    constructor
    · rintro ⟨t, ht, he⟩
      rw [List.mem_flatten] at ht
      obtain ⟨l, hl, htl⟩ := ht
      rw [List.mem_map] at hl
      obtain ⟨b, hb, rfl⟩ := hl
      exact ⟨b, hb, t, htl, he⟩
    · rintro ⟨b, hb, t, htl, he⟩
      refine ⟨t, ?_, he⟩
      rw [List.mem_flatten]
      exact ⟨b.transactions, List.mem_map.mpr ⟨b, hb, rfl⟩, htl⟩
  rcases hf : s.transactions.find? (fun t => t.hash = txh) with _ | t
  · have hnone : ∀ t ∈ s.transactions, t.hash ≠ txh := by
      have hall := List.find?_eq_none.mp hf
      intro t ht
      simpa using hall t ht
    constructor
    · constructor
      · intro _ hex
        obtain ⟨t, ht, he⟩ := hmem.mpr hex
        exact hnone t ht he
      · intro _
        simp only [processMethod, hf]
    · constructor
      · rintro ⟨r, hr, -⟩
        simp only [processMethod, hf] at hr
        exact absurd hr (by simp)
      · intro hex
        obtain ⟨t, ht, he⟩ := hmem.mpr hex
        exact absurd he (hnone t ht)
  · have htmem : t ∈ s.transactions := List.mem_of_find?_eq_some hf
    have hthash : t.hash = txh := by simpa using List.find?_some hf
    constructor
    · constructor
      · intro heq
        simp only [processMethod, hf] at heq
        exact absurd heq (by simp)
      · intro hnotex
        exact absurd (hmem.mp ⟨t, htmem, hthash⟩) hnotex
    · constructor
      · intro _
        exact hmem.mp ⟨t, htmem, hthash⟩
      · intro _
        exact ⟨{ transactionHash := t.hash
                 transactionIndex := "0x0"
                 blockHash := t.blockHash.getD
                   ("0x0000000000000000000000000000000000000000000000000000000000000000")
                 blockNumber := t.blockNumber.getD 0
                 «from» := t.«from»
                 «to» := t.«to»
                 cumulativeGasUsed := "0x5208"
                 gasUsed := "0x5208"
                 contractAddress := t.contractAddress
                 logs := []
                 status := "0x1" },
               by simp only [processMethod, hf], rfl⟩

theorem c9_receipt_witness :
    processMethod genesisState 0 (.eth_getTransactionReceipt ("0xq"))
        = .ok (.null, genesisState) ∧
      TxIndexInv (handleBlockMessage genesisState c2block1) ∧
      TxIndexInv
        (handleRPCRequest c3state 8 (some (some 1, .eth_sendRawTransaction ("aa")))).2 :=
  ⟨(c9_receipt.1 genesisState ("0xq") 0 (c9_receipt.2.1 100)).1.mpr (by decide),
   c9_receipt.2.2.1 genesisState c2block1 (c9_receipt.2.1 100),
   c9_receipt.2.2.2.2 c3state 8 (some (some 1, .eth_sendRawTransaction ("aa")))
     (by simp only [TxIndexInv]; decide)⟩

end IperChain
